import Mathlib

/-!
Shallow embedding of the config-manager repository (Go): the SQLite-backed
version store (`src/storage/sqlite_store.go`), the JSON-schema validator
(`src/services/validation.go`) and the configuration service
(`src/services/config_service.go`), together with proofs of the frozen
specification claims.

Modelling conventions:
* The two SQLite tables become lists of rows inside a `DB` value.  The
  `AUTOINCREMENT` surrogate key of `versions` is modelled by `nextVersionId`.
* Timestamps (`time.Time`, stored as SQLite `DATETIME`) are modelled as `Nat`;
  `time.Now()` becomes an explicit `now` parameter.  The multi-format
  timestamp string parsing of `parseTimestamp` is an artifact of the storage
  engine and is modelled as the identity (it never fails on values the store
  itself wrote).
* Every Go store method runs inside one SQLite transaction that is rolled
  back on any failure, so each operation is a function `DB → ... → DB × Except StoreError _`
  whose error branches return the input `DB` unchanged.
* A violated SQLite constraint surfaces in Go as a generic wrapped error
  (except the configuration-name uniqueness violation, which
  `isUniqueConstraintError` maps to `ConfigAlreadyExistsError`); we model the
  generic case as `StoreError.internalError`.
-/

namespace ConfigManager

/-- Row of the `configurations` table, also the `models.Configuration` value
returned by the store (the Go struct has exactly these fields). -/
structure Configuration where
  Name : String
  CurrentVersion : Nat
  CreatedAt : Nat
  UpdatedAt : Nat
deriving Repr, DecidableEq

/-- Row of the `versions` table, also the `models.Version` value. -/
structure Version where
  ID : Nat
  ConfigurationName : String
  VersionNumber : Nat
  JsonData : String
  CreatedAt : Nat
deriving Repr, DecidableEq

/-- The persistent state: the two tables plus the AUTOINCREMENT counter for
`versions.id`. -/
structure DB where
  configs : List Configuration
  versions : List Version
  nextVersionId : Nat
deriving Repr, DecidableEq

/-- The freshly migrated database: both tables empty. -/
def DB.empty : DB := ⟨[], [], 1⟩

/-- The typed store errors of `sqlite_store.go` (`ConfigAlreadyExistsError`,
`ConfigNotFoundError`, `VersionNotFoundError`) plus the generic wrapped
`fmt.Errorf` failures, collapsed into `internalError`. -/
inductive StoreError where
  | configAlreadyExists (name : String)
  | configNotFound (name : String)
  | versionNotFound (name : String) (version : Nat)
  | internalError (msg : String)
deriving Repr, DecidableEq

/-- SELECT on `configurations` by primary key `name`. -/
def DB.findConfig (db : DB) (name : String) : Option Configuration :=
  db.configs.find? (fun c => c.Name == name)

/-- SELECT on `versions` by the composite key `(configuration_name, version_number)`. -/
def DB.findVersion (db : DB) (name : String) (vn : Nat) : Option Version :=
  db.versions.find? (fun v => v.ConfigurationName == name && v.VersionNumber == vn)

/-- Whether a row with the composite key `(name, vn)` exists in `versions`
(the `UNIQUE(configuration_name, version_number)` constraint fires on insert
exactly when this is true). -/
def DB.hasVersion (db : DB) (name : String) (vn : Nat) : Bool :=
  db.versions.any (fun v => v.ConfigurationName == name && v.VersionNumber == vn)

/-- Whether a row named `name` exists in `configurations` (the primary-key
uniqueness constraint fires on insert exactly when this is true). -/
def DB.hasConfig (db : DB) (name : String) : Bool :=
  db.configs.any (fun c => c.Name == name)

/-- `CreateConfiguration` (sqlite_store.go lines 26-72): in one transaction,
insert the configuration row with `current_version = 1` (a primary-key
violation is mapped to `ConfigAlreadyExistsError` by `isUniqueConstraintError`),
then insert version row 1; on any failure the transaction is rolled back. -/
def CreateConfiguration (db : DB) (now : Nat) (name jsonData : String) :
    DB × Except StoreError Configuration :=
  if db.hasConfig name then
    (db, .error (.configAlreadyExists name))
  else if db.hasVersion name 1 then
    (db, .error (.internalError "failed to insert version"))
  else
    let cfg : Configuration := ⟨name, 1, now, now⟩
    let ver : Version := ⟨db.nextVersionId, name, 1, jsonData, now⟩
    ({ configs := db.configs ++ [cfg],
       versions := db.versions ++ [ver],
       nextVersionId := db.nextVersionId + 1 },
     .ok cfg)

/-- `UpdateConfiguration` (sqlite_store.go lines 75-126): read the current
version (`ConfigNotFoundError` if the row is absent); in one transaction,
insert the version row numbered `current_version + 1` (a composite-key
violation surfaces as a generic wrapped error) and update the configuration
row's `current_version` and `updated_at`.  The returned `models.Configuration`
sets both `CreatedAt` and `UpdatedAt` to `now` (lines 120-125). -/
def UpdateConfiguration (db : DB) (now : Nat) (name jsonData : String) :
    DB × Except StoreError Configuration :=
  match db.findConfig name with
  | none => (db, .error (.configNotFound name))
  | some cfg =>
    let newVersion := cfg.CurrentVersion + 1
    if db.hasVersion name newVersion then
      (db, .error (.internalError "failed to insert new version"))
    else
      let ver : Version := ⟨db.nextVersionId, name, newVersion, jsonData, now⟩
      ({ configs := db.configs.map (fun c =>
           if c.Name == name then
             { c with CurrentVersion := newVersion, UpdatedAt := now }
           else c),
         versions := db.versions ++ [ver],
         nextVersionId := db.nextVersionId + 1 },
       .ok ⟨name, newVersion, now, now⟩)

/-- `RollbackConfiguration` (sqlite_store.go lines 129-198): in one
transaction, look up the target version (`VersionNotFoundError` if absent),
then the configuration row (`ConfigNotFoundError` if absent), insert a new
version row numbered `current_version + 1` whose `json_data` is the target
version's data copied verbatim, and update the configuration row.  The
returned `models.Configuration` carries the stored `created_at` (lines
192-197). -/
def RollbackConfiguration (db : DB) (now : Nat) (name : String) (targetVersion : Nat) :
    DB × Except StoreError Configuration :=
  match db.findVersion name targetVersion with
  | none => (db, .error (.versionNotFound name targetVersion))
  | some target =>
    match db.findConfig name with
    | none => (db, .error (.configNotFound name))
    | some cfg =>
      let newVersion := cfg.CurrentVersion + 1
      if db.hasVersion name newVersion then
        (db, .error (.internalError "failed to insert rollback version"))
      else
        let ver : Version := ⟨db.nextVersionId, name, newVersion, target.JsonData, now⟩
        ({ configs := db.configs.map (fun c =>
             if c.Name == name then
               { c with CurrentVersion := newVersion, UpdatedAt := now }
             else c),
           versions := db.versions ++ [ver],
           nextVersionId := db.nextVersionId + 1 },
         .ok ⟨name, newVersion, cfg.CreatedAt, now⟩)

/-- `GetLatestConfiguration` (sqlite_store.go lines 201-243): a single
`QueryRow` over the join
`configurations c JOIN versions v ON c.name = v.configuration_name AND c.current_version = v.version_number WHERE c.name = ?`;
`sql.ErrNoRows` (an empty join result) is mapped to `ConfigNotFoundError`. -/
def GetLatestConfiguration (db : DB) (name : String) :
    Except StoreError (Configuration × Version) :=
  let rows := (db.configs.filter (fun c => c.Name == name)).flatMap
    (fun c => (db.versions.filter (fun v =>
        v.ConfigurationName == c.Name && v.VersionNumber == c.CurrentVersion)).map
      (fun v => (c, v)))
  match rows.head? with
  | none => .error (.configNotFound name)
  | some cv => .ok cv

/-- `GetConfigurationVersion` (sqlite_store.go lines 246-273): direct lookup
by `(name, versionNumber)`; `VersionNotFoundError` if absent. -/
def GetConfigurationVersion (db : DB) (name : String) (vn : Nat) :
    Except StoreError Version :=
  match db.findVersion name vn with
  | none => .error (.versionNotFound name vn)
  | some v => .ok v

/-- `ListVersions` (sqlite_store.go lines 276-345): look up the configuration
row (`ConfigNotFoundError` if absent), then return all version rows for the
name `ORDER BY version_number DESC`. -/
def ListVersions (db : DB) (name : String) :
    Except StoreError (Configuration × List Version) :=
  match db.findConfig name with
  | none => .error (.configNotFound name)
  | some cfg =>
    .ok (cfg,
      (db.versions.filter (fun v => v.ConfigurationName == name)).mergeSort
        (fun a b => decide (b.VersionNumber ≤ a.VersionNumber)))

/-- The version numbers present for `name` in a `versions` table, in row
order. -/
def versionNumbersFor (versions : List Version) (name : String) : List Nat :=
  (versions.filter (fun v => v.ConfigurationName == name)).map
    (fun v => v.VersionNumber)

/-- The inductive store invariant: every version row references an existing
configuration row (the `FOREIGN KEY (configuration_name)` constraint of the
schema), every configuration's `current_version` is positive, and the version
numbers present for each configuration name are exactly `1, …, current_version`
in row order. -/
def Inv (db : DB) : Prop :=
  (∀ v ∈ db.versions, ∃ c ∈ db.configs, c.Name = v.ConfigurationName) ∧
  (∀ c ∈ db.configs, 1 ≤ c.CurrentVersion) ∧
  (∀ c ∈ db.configs, versionNumbersFor db.versions c.Name = List.range' 1 c.CurrentVersion)

instance (db : DB) : Decidable (Inv db) := by
  unfold Inv; infer_instance

/-- States reachable from the empty database through store operations (reads
do not change state; failed mutations roll back, which the model expresses by
returning the input state, so the steps below cover failures too). -/
inductive Reachable : DB → Prop where
  | init : Reachable DB.empty
  | create (db : DB) (now : Nat) (name jsonData : String) :
      Reachable db → Reachable (CreateConfiguration db now name jsonData).1
  | update (db : DB) (now : Nat) (name jsonData : String) :
      Reachable db → Reachable (UpdateConfiguration db now name jsonData).1
  | rollback (db : DB) (now : Nat) (name : String) (t : Nat) :
      Reachable db → Reachable (RollbackConfiguration db now name t).1

/-! The schema validator (`src/services/validation.go`) and the configuration
service.  `gojsonschema` validates the parsed JSON document (Go's
`encoding/json` object representation, so object keys are distinct); we model
parsed documents by the `Json` type.  `fraction` stands for a JSON number
with a nonzero fractional part, which the schema type `integer` rejects. -/

inductive Json where
  | null
  | boolean (b : Bool)
  | integer (n : Int)
  | fraction (num : Int) (den : Nat)
  | str (s : String)
  | array (elems : List Json)
  | object (fields : List (String × Json))

/-- Serialization of a document back to text; the Go service hands the store
the raw request body, which the store treats as an opaque string, so only
this function's totality matters, never its exact output. -/
def Json.render : Json → String
  | .null => "null"
  | .boolean b => cond b "true" "false"
  | .integer n => toString n
  | .fraction num den => toString num ++ "/" ++ toString den
  | .str s => "\x22" ++ s ++ "\x22"
  | .array elems => "[" ++ String.intercalate "," (elems.attach.map (fun e => e.1.render)) ++ "]"
  | .object fields => "\x7b" ++ String.intercalate ","
      (fields.attach.map (fun f => "\x22" ++ f.1.1 ++ "\x22:" ++ f.1.2.render)) ++ "\x7d"
decreasing_by
  · have h := List.sizeOf_lt_of_mem e.2
    simp at h ⊢
    omega
  · have h := List.sizeOf_lt_of_mem f.2
    obtain ⟨⟨k, v⟩, hf⟩ := f
    simp at h ⊢
    omega

/-- One field-level violation (`services.ValidationError`). -/
structure ValidationError where
  Field : String
  Error : String
deriving Repr, DecidableEq

/-- Structured schema failure (`services.SchemaValidationError`). -/
structure SchemaValidationError where
  Message : String
  Errors : List ValidationError
deriving Repr, DecidableEq

/-- Object-field lookup (Go objects are maps, found by key). -/
def lookupField (fields : List (String × Json)) (key : String) : Option Json :=
  (fields.find? (fun p => p.1 == key)).map (fun p => p.2)

/-- Violations of the `max_limit` property: required, type `integer`,
`minimum 0`. -/
def maxLimitViolations (fields : List (String × Json)) : List ValidationError :=
  match lookupField fields "max_limit" with
  | none => [⟨"(root)", "max_limit is required"⟩]
  | some (.integer n) =>
    if n < 0 then [⟨"max_limit", "Must be greater than or equal to 0"⟩] else []
  | some _ => [⟨"max_limit", "Invalid type. Expected: integer"⟩]

/-- Violations of the `enabled` property: required, type `boolean`. -/
def enabledViolations (fields : List (String × Json)) : List ValidationError :=
  match lookupField fields "enabled" with
  | none => [⟨"(root)", "enabled is required"⟩]
  | some (.boolean _) => []
  | some _ => [⟨"enabled", "Invalid type. Expected: boolean"⟩]

/-- Violations of `additionalProperties: false`: one per extra field. -/
def additionalViolations (fields : List (String × Json)) : List ValidationError :=
  (fields.filter (fun p => p.1 != "max_limit" && p.1 != "enabled")).map
    (fun p => ⟨"(root)", "Additional property " ++ p.1 ++ " is not allowed"⟩)

/-- The violations of the hardcoded `ConfigDataSchema`
(`{max_limit: integer, minimum 0; enabled: boolean; both required; no
additional properties}`, validation.go lines 16-24), enumerating every
violated constraint with its field path, as `gojsonschema` does. -/
def schemaViolations (doc : Json) : List ValidationError :=
  match doc with
  | .object fields =>
    maxLimitViolations fields ++ enabledViolations fields ++ additionalViolations fields
  | _ => [⟨"(root)", "Invalid type. Expected: object"⟩]

/-- `ValidateConfigData` (validation.go lines 40-63): `none` on success,
otherwise the structured failure carrying every violation. -/
def ValidateConfigData (doc : Json) : Option SchemaValidationError :=
  if schemaViolations doc = [] then none
  else some ⟨"Configuration data does not match required schema", schemaViolations doc⟩

/-- Service-level errors: schema failures and the local non-positive-version
check, plus propagated store errors (config_service.go propagates both
unchanged). -/
inductive ServiceError where
  | schemaValidation (e : SchemaValidationError)
  | invalidVersionNumber
  | store (e : StoreError)
deriving Repr, DecidableEq

/-- `ConfigService.CreateConfig` (config_service.go lines 32-45): validate
the payload, returning the validation error untouched on failure; otherwise
delegate to the store create and propagate its outcome. -/
def ConfigService.CreateConfig (db : DB) (now : Nat) (name : String) (payload : Json) :
    DB × Except ServiceError Configuration :=
  match ValidateConfigData payload with
  | some e => (db, .error (.schemaValidation e))
  | none =>
    match CreateConfiguration db now name payload.render with
    | (db', .ok cfg) => (db', .ok cfg)
    | (db', .error e) => (db', .error (.store e))

/-- `ConfigService.UpdateConfig` (config_service.go lines 53-66): validate,
then delegate to the store update. -/
def ConfigService.UpdateConfig (db : DB) (now : Nat) (name : String) (payload : Json) :
    DB × Except ServiceError Configuration :=
  match ValidateConfigData payload with
  | some e => (db, .error (.schemaValidation e))
  | none =>
    match UpdateConfiguration db now name payload.render with
    | (db', .ok cfg) => (db', .ok cfg)
    | (db', .error e) => (db', .error (.store e))

/-- `ConfigService.RollbackConfig` (config_service.go lines 69-85): reject a
non-positive target version locally, otherwise delegate to the store
rollback; the payload is not re-validated. -/
def ConfigService.RollbackConfig (db : DB) (now : Nat) (name : String) (targetVersion : Int) :
    DB × Except ServiceError Configuration :=
  if targetVersion < 1 then
    (db, .error .invalidVersionNumber)
  else
    match RollbackConfiguration db now name targetVersion.toNat with
    | (db', .ok cfg) => (db', .ok cfg)
    | (db', .error e) => (db', .error (.store e))

/-! Helper lemmas about the row-level queries. -/

theorem versionNumbersFor_append (vs : List Version) (v : Version) (name : String) :
    versionNumbersFor (vs ++ [v]) name =
      versionNumbersFor vs name ++
        (if v.ConfigurationName == name then [v.VersionNumber] else []) := by
  simp only [versionNumbersFor, List.filter_append, List.map_append]
  by_cases h : v.ConfigurationName == name <;> simp [h]

theorem versionNumbersFor_append_match (vs : List Version) (v : Version) (name : String)
    (h : v.ConfigurationName = name) :
    versionNumbersFor (vs ++ [v]) name = versionNumbersFor vs name ++ [v.VersionNumber] := by
  rw [versionNumbersFor_append]; simp [h]

theorem versionNumbersFor_append_other (vs : List Version) (v : Version) (name : String)
    (h : v.ConfigurationName ≠ name) :
    versionNumbersFor (vs ++ [v]) name = versionNumbersFor vs name := by
  rw [versionNumbersFor_append]; simp [h]

theorem hasVersion_iff_mem (db : DB) (name : String) (k : Nat) :
    db.hasVersion name k = true ↔ k ∈ versionNumbersFor db.versions name := by
  simp only [DB.hasVersion, versionNumbersFor, List.any_eq_true, List.mem_map,
    List.mem_filter, Bool.and_eq_true, beq_iff_eq]
  constructor
  · rintro ⟨v, hv, hn, hk⟩; exact ⟨v, ⟨hv, hn⟩, hk⟩
  · rintro ⟨v, ⟨hv, hn⟩, hk⟩; exact ⟨v, hv, hn, hk⟩

theorem hasConfig_false_iff (db : DB) (name : String) :
    db.hasConfig name = false ↔ ∀ c ∈ db.configs, c.Name ≠ name := by
  simp [DB.hasConfig]

theorem findConfig_eq_none_iff (db : DB) (name : String) :
    db.findConfig name = none ↔ ∀ c ∈ db.configs, c.Name ≠ name := by
  simp [DB.findConfig]

theorem findConfig_mem (db : DB) (name : String) (cfg : Configuration)
    (h : db.findConfig name = some cfg) : cfg ∈ db.configs :=
  List.mem_of_find?_eq_some h

theorem findConfig_name (db : DB) (name : String) (cfg : Configuration)
    (h : db.findConfig name = some cfg) : cfg.Name = name := by
  have := List.find?_some h
  simpa using this

theorem findVersion_mem (db : DB) (name : String) (k : Nat) (v : Version)
    (h : db.findVersion name k = some v) : v ∈ db.versions :=
  List.mem_of_find?_eq_some h

theorem findVersion_keys (db : DB) (name : String) (k : Nat) (v : Version)
    (h : db.findVersion name k = some v) :
    v.ConfigurationName = name ∧ v.VersionNumber = k := by
  have := List.find?_some h
  simpa using this

theorem findVersion_eq_none_iff (db : DB) (name : String) (k : Nat) :
    db.findVersion name k = none ↔
      ∀ v ∈ db.versions, ¬(v.ConfigurationName = name ∧ v.VersionNumber = k) := by
  simp [DB.findVersion, not_and]

/-- Under the foreign-key part of the invariant, a name with no configuration
row has no version rows either. -/
theorem no_config_no_numbers (db : DB) (name : String) (hinv : Inv db)
    (h : ∀ c ∈ db.configs, c.Name ≠ name) :
    versionNumbersFor db.versions name = [] := by
  simp only [versionNumbersFor, List.map_eq_nil_iff, List.filter_eq_nil_iff]
  intro v hv hn
  obtain ⟨c, hc, hcn⟩ := hinv.1 v hv
  exact h c hc (by simpa using hcn.trans (by simpa using hn))

theorem no_config_no_version (db : DB) (name : String) (k : Nat) (hinv : Inv db)
    (h : ∀ c ∈ db.configs, c.Name ≠ name) :
    db.findVersion name k = none := by
  rw [findVersion_eq_none_iff]
  rintro v hv ⟨hn, -⟩
  obtain ⟨c, hc, hcn⟩ := hinv.1 v hv
  exact h c hc (hcn.trans hn)

/-! Characterization of the success paths of the three mutations, under the
store invariant. -/

/-- On a fresh name, `CreateConfiguration` succeeds and appends the two rows. -/
theorem create_ok (db : DB) (now : Nat) (name jsonData : String)
    (hfresh : db.hasConfig name = false) (hinv : Inv db) :
    CreateConfiguration db now name jsonData =
      ({ configs := db.configs ++ [⟨name, 1, now, now⟩],
         versions := db.versions ++ [⟨db.nextVersionId, name, 1, jsonData, now⟩],
         nextVersionId := db.nextVersionId + 1 },
       .ok ⟨name, 1, now, now⟩) := by
  have hnov : db.hasVersion name 1 = false := by
    rw [← Bool.not_eq_true, hasVersion_iff_mem,
      no_config_no_numbers db name hinv ((hasConfig_false_iff db name).1 hfresh)]
    simp
  unfold CreateConfiguration
  rw [hfresh, hnov]
  simp

/-- On an existing name, `UpdateConfiguration` succeeds, appends the version
row numbered `current_version + 1` and advances the configuration row. -/
theorem update_ok (db : DB) (now : Nat) (name jsonData : String) (cfg : Configuration)
    (hfind : db.findConfig name = some cfg) (hinv : Inv db) :
    UpdateConfiguration db now name jsonData =
      ({ configs := db.configs.map (fun c =>
           if c.Name == name then
             { c with CurrentVersion := cfg.CurrentVersion + 1, UpdatedAt := now }
           else c),
         versions := db.versions ++
           [⟨db.nextVersionId, name, cfg.CurrentVersion + 1, jsonData, now⟩],
         nextVersionId := db.nextVersionId + 1 },
       .ok ⟨name, cfg.CurrentVersion + 1, now, now⟩) := by
  have hnums := hinv.2.2 cfg (findConfig_mem db name cfg hfind)
  rw [findConfig_name db name cfg hfind] at hnums
  have hnov : db.hasVersion name (cfg.CurrentVersion + 1) = false := by
    rw [← Bool.not_eq_true, hasVersion_iff_mem, hnums]
    simp only [List.mem_range']
    omega
  unfold UpdateConfiguration
  rw [hfind]
  simp [hnov]

/-- When the target version and the configuration both exist,
`RollbackConfiguration` succeeds, appends a version row numbered
`current_version + 1` carrying the target's `json_data` verbatim, and
advances the configuration row. -/
theorem rollback_ok (db : DB) (now : Nat) (name : String) (t : Nat)
    (target : Version) (cfg : Configuration)
    (hver : db.findVersion name t = some target)
    (hfind : db.findConfig name = some cfg) (hinv : Inv db) :
    RollbackConfiguration db now name t =
      ({ configs := db.configs.map (fun c =>
           if c.Name == name then
             { c with CurrentVersion := cfg.CurrentVersion + 1, UpdatedAt := now }
           else c),
         versions := db.versions ++
           [⟨db.nextVersionId, name, cfg.CurrentVersion + 1, target.JsonData, now⟩],
         nextVersionId := db.nextVersionId + 1 },
       .ok ⟨name, cfg.CurrentVersion + 1, cfg.CreatedAt, now⟩) := by
  have hnums := hinv.2.2 cfg (findConfig_mem db name cfg hfind)
  rw [findConfig_name db name cfg hfind] at hnums
  have hnov : db.hasVersion name (cfg.CurrentVersion + 1) = false := by
    rw [← Bool.not_eq_true, hasVersion_iff_mem, hnums]
    simp only [List.mem_range']
    omega
  unfold RollbackConfiguration
  rw [hver, hfind]
  simp [hnov]

/-! Preservation of the store invariant. -/

theorem advance_name (c : Configuration) (name : String) (nv now : Nat) :
    (if c.Name == name then
        { c with CurrentVersion := nv, UpdatedAt := now }
      else c).Name = c.Name := by
  by_cases h : c.Name == name <;> simp [h]

/-- The common success-state shape of `UpdateConfiguration` and
`RollbackConfiguration` preserves the invariant. -/
theorem advance_inv (db : DB) (name : String) (cfg : Configuration) (now : Nat)
    (payload : String) (hfind : db.findConfig name = some cfg) (hinv : Inv db) :
    Inv { configs := db.configs.map (fun c =>
            if c.Name == name then
              { c with CurrentVersion := cfg.CurrentVersion + 1, UpdatedAt := now }
            else c),
          versions := db.versions ++
            [⟨db.nextVersionId, name, cfg.CurrentVersion + 1, payload, now⟩],
          nextVersionId := db.nextVersionId + 1 } := by
  have hmem : cfg ∈ db.configs := findConfig_mem db name cfg hfind
  have hname : cfg.Name = name := findConfig_name db name cfg hfind
  have hnums := hinv.2.2 cfg hmem
  rw [hname] at hnums
  refine ⟨?_, ?_, ?_⟩
  · intro v hv
    rcases List.mem_append.1 hv with hv | hv
    · obtain ⟨c, hc, hcn⟩ := hinv.1 v hv
      refine ⟨_, List.mem_map_of_mem _ hc, ?_⟩
      rw [advance_name]; exact hcn
    · refine ⟨_, List.mem_map_of_mem _ hmem, ?_⟩
      rw [advance_name, hname]
      simpa using (List.mem_singleton.1 hv).symm ▸ rfl
  · intro c' hc'
    obtain ⟨c, hc, rfl⟩ := List.mem_map.1 hc'
    by_cases h : c.Name == name <;> simp [h]
    exact hinv.2.1 c hc
  · intro c' hc'
    obtain ⟨c, hc, rfl⟩ := List.mem_map.1 hc'
    by_cases h : c.Name == name
    · have hcn : c.Name = name := by simpa using h
      rw [if_pos h]
      dsimp only
      rw [hcn, versionNumbersFor_append_match _ _ _ rfl, hnums, List.range'_1_concat,
        Nat.add_comm 1 cfg.CurrentVersion]
    · have hcn : c.Name ≠ name := by simpa using h
      rw [if_neg h]
      dsimp only
      rw [versionNumbersFor_append_other _ _ _ (fun e => hcn e.symm)]
      exact hinv.2.2 c hc

theorem create_inv (db : DB) (now : Nat) (name jsonData : String) (hinv : Inv db) :
    Inv (CreateConfiguration db now name jsonData).1 := by
  by_cases hc : db.hasConfig name = true
  · simpa [CreateConfiguration, hc] using hinv
  · rw [Bool.not_eq_true] at hc
    rw [create_ok db now name jsonData hc hinv]
    have hfresh := (hasConfig_false_iff db name).1 hc
    refine ⟨?_, ?_, ?_⟩
    · intro v hv
      rcases List.mem_append.1 hv with hv | hv
      · obtain ⟨c, hcm, hcn⟩ := hinv.1 v hv
        exact ⟨c, List.mem_append_left _ hcm, hcn⟩
      · refine ⟨⟨name, 1, now, now⟩, List.mem_append_right _ (by simp), ?_⟩
        rw [List.mem_singleton.1 hv]
    · intro c hcm
      rcases List.mem_append.1 hcm with hcm | hcm
      · exact hinv.2.1 c hcm
      · rw [List.mem_singleton.1 hcm]
    · intro c hcm
      rcases List.mem_append.1 hcm with hcm | hcm
      · show versionNumbersFor _ _ = _
        rw [versionNumbersFor_append_other _ _ _ (fun e => hfresh c hcm e.symm)]
        exact hinv.2.2 c hcm
      · rw [List.mem_singleton.1 hcm]
        show versionNumbersFor _ _ = _
        rw [versionNumbersFor_append_match _ _ _ rfl,
          no_config_no_numbers db name hinv hfresh]
        simp

theorem update_inv (db : DB) (now : Nat) (name jsonData : String) (hinv : Inv db) :
    Inv (UpdateConfiguration db now name jsonData).1 := by
  cases hfind : db.findConfig name with
  | none => simpa [UpdateConfiguration, hfind] using hinv
  | some cfg =>
    rw [update_ok db now name jsonData cfg hfind hinv]
    exact advance_inv db name cfg now jsonData hfind hinv

theorem rollback_inv (db : DB) (now : Nat) (name : String) (t : Nat) (hinv : Inv db) :
    Inv (RollbackConfiguration db now name t).1 := by
  cases hver : db.findVersion name t with
  | none => simpa [RollbackConfiguration, hver] using hinv
  | some target =>
    cases hfind : db.findConfig name with
    | none => simpa [RollbackConfiguration, hver, hfind] using hinv
    | some cfg =>
      rw [rollback_ok db now name t target cfg hver hfind hinv]
      exact advance_inv db name cfg now target.JsonData hfind hinv

theorem inv_empty : Inv DB.empty := by decide

theorem reachable_inv (db : DB) (h : Reachable db) : Inv db := by
  induction h with
  | init => exact inv_empty
  | create db now name jsonData _ ih => exact create_inv db now name jsonData ih
  | update db now name jsonData _ ih => exact update_inv db now name jsonData ih
  | rollback db now name t _ ih => exact rollback_inv db now name t ih

/-! Step lemmas tracking the configuration row and version numbers across
successful mutations. -/

theorem find?_configs_append (configs : List Configuration) (cfg : Configuration)
    (name : String) (hfresh : ∀ c ∈ configs, c.Name ≠ name) (hn : cfg.Name = name) :
    (configs ++ [cfg]).find? (fun c => c.Name == name) = some cfg := by
  rw [List.find?_append]
  have h0 : configs.find? (fun c => c.Name == name) = none := by
    simp only [List.find?_eq_none]
    intro c hc
    simpa using hfresh c hc
  rw [h0]
  simp [hn]

theorem findConfig_map_advance (configs : List Configuration) (name : String)
    (nv now : Nat) (cfg : Configuration)
    (h : configs.find? (fun c => c.Name == name) = some cfg) :
    (configs.map (fun c =>
        if c.Name == name then
          { c with CurrentVersion := nv, UpdatedAt := now }
        else c)).find? (fun c => c.Name == name) =
      some { cfg with CurrentVersion := nv, UpdatedAt := now } := by
  rw [List.find?_map]
  have hfun : ((fun c : Configuration => c.Name == name) ∘ (fun c =>
      if c.Name == name then
        { c with CurrentVersion := nv, UpdatedAt := now }
      else c)) = (fun c : Configuration => c.Name == name) := by
    funext c
    simp only [Function.comp]
    rw [advance_name]
  rw [hfun, h]
  show some _ = _
  dsimp only
  rw [if_pos (List.find?_some h)]

theorem findVersion_isSome_iff (db : DB) (name : String) (k : Nat) :
    (db.findVersion name k).isSome ↔ db.hasVersion name k = true := by
  simp [DB.findVersion, DB.hasVersion]

theorem create_step (db : DB) (now : Nat) (name jsonData : String)
    (hfresh : db.hasConfig name = false) (hinv : Inv db) :
    ∃ db' : DB,
      CreateConfiguration db now name jsonData = (db', .ok ⟨name, 1, now, now⟩) ∧
      Inv db' ∧
      db'.findConfig name = some ⟨name, 1, now, now⟩ ∧
      versionNumbersFor db'.versions name = [1] := by
  have hfresh' := (hasConfig_false_iff db name).1 hfresh
  have e1 := create_ok db now name jsonData hfresh hinv
  refine ⟨_, e1, ?_, ?_, ?_⟩
  · have := create_inv db now name jsonData hinv
    rwa [e1] at this
  · exact find?_configs_append db.configs _ name hfresh' rfl
  · show versionNumbersFor (db.versions ++ _) name = [1]
    rw [versionNumbersFor_append_match _ _ _ rfl,
      no_config_no_numbers db name hinv hfresh']
    rfl

theorem update_step (db : DB) (now : Nat) (name jsonData : String) (cfg : Configuration)
    (hfind : db.findConfig name = some cfg) (hinv : Inv db) :
    ∃ db' : DB,
      UpdateConfiguration db now name jsonData =
        (db', .ok ⟨name, cfg.CurrentVersion + 1, now, now⟩) ∧
      Inv db' ∧
      db'.findConfig name =
        some { cfg with CurrentVersion := cfg.CurrentVersion + 1, UpdatedAt := now } ∧
      versionNumbersFor db'.versions name =
        versionNumbersFor db.versions name ++ [cfg.CurrentVersion + 1] := by
  have e1 := update_ok db now name jsonData cfg hfind hinv
  refine ⟨_, e1, ?_, ?_, ?_⟩
  · have := update_inv db now name jsonData hinv
    rwa [e1] at this
  · exact findConfig_map_advance db.configs name _ now cfg hfind
  · exact versionNumbersFor_append_match _ _ _ rfl

theorem rollback_step (db : DB) (now : Nat) (name : String) (t : Nat) (cfg : Configuration)
    (hfind : db.findConfig name = some cfg) (hinv : Inv db)
    (hmem : t ∈ versionNumbersFor db.versions name) :
    ∃ (db' : DB) (target : Version),
      db.findVersion name t = some target ∧
      RollbackConfiguration db now name t =
        (db', .ok ⟨name, cfg.CurrentVersion + 1, cfg.CreatedAt, now⟩) ∧
      Inv db' ∧
      db'.findConfig name =
        some { cfg with CurrentVersion := cfg.CurrentVersion + 1, UpdatedAt := now } ∧
      db'.versions = db.versions ++
        [⟨db.nextVersionId, name, cfg.CurrentVersion + 1, target.JsonData, now⟩] ∧
      versionNumbersFor db'.versions name =
        versionNumbersFor db.versions name ++ [cfg.CurrentVersion + 1] := by
  have hsome : (db.findVersion name t).isSome := by
    rw [findVersion_isSome_iff, hasVersion_iff_mem]
    exact hmem
  obtain ⟨target, htarget⟩ := Option.isSome_iff_exists.1 hsome
  have e1 := rollback_ok db now name t target cfg htarget hfind hinv
  refine ⟨_, target, htarget, e1, ?_, ?_, rfl, ?_⟩
  · have := rollback_inv db now name t hinv
    rwa [e1] at this
  · exact findConfig_map_advance db.configs name _ now cfg hfind
  · exact versionNumbersFor_append_match _ _ _ rfl

/-! Claim theorems. -/

/-- C1: in every reachable store state the invariant holds; under it, each
configuration's `current_version` equals the highest version number present
for its name, the version numbers form a strictly increasing sequence
starting at 1, and each of `CreateConfiguration`, `UpdateConfiguration` and
`RollbackConfiguration` preserves the invariant. -/
theorem C1_version_invariant :
    (∀ db : DB, Reachable db → Inv db) ∧
    (∀ db : DB, Inv db → ∀ c ∈ db.configs,
      (versionNumbersFor db.versions c.Name).maximum =
        (Option.some c.CurrentVersion : WithBot ℕ) ∧
      (versionNumbersFor db.versions c.Name).head? = some 1 ∧
      List.Chain' (· < ·) (versionNumbersFor db.versions c.Name)) ∧
    (∀ (db : DB) (now : Nat) (name jsonData : String),
      Inv db → Inv (CreateConfiguration db now name jsonData).1) ∧
    (∀ (db : DB) (now : Nat) (name jsonData : String),
      Inv db → Inv (UpdateConfiguration db now name jsonData).1) ∧
    (∀ (db : DB) (now : Nat) (name : String) (t : Nat),
      Inv db → Inv (RollbackConfiguration db now name t).1) := by
  refine ⟨reachable_inv, ?_, create_inv, update_inv, rollback_inv⟩
  intro db hinv c hc
  have hpos := hinv.2.1 c hc
  have hnums := hinv.2.2 c hc
  rw [hnums]
  refine ⟨?_, ?_, ?_⟩
  · rw [WithBot.some_eq_coe, List.maximum_eq_coe_iff]
    constructor
    · exact List.mem_range'.2 ⟨c.CurrentVersion - 1, by omega, by omega⟩
    · intro a ha
      obtain ⟨i, hi, rfl⟩ := List.mem_range'.1 ha
      omega
  · obtain ⟨m, hm⟩ : ∃ m, c.CurrentVersion = m + 1 := ⟨c.CurrentVersion - 1, by omega⟩
    rw [hm, List.range'_succ]
    rfl
  · exact (List.pairwise_lt_range' 1 c.CurrentVersion).chain'

/-- Witness for C1 at a concrete reachable state. -/
theorem C1_version_invariant_witness :
    Inv (CreateConfiguration DB.empty 0 "app" "d").1 ∧
    (versionNumbersFor (CreateConfiguration DB.empty 0 "app" "d").1.versions "app").maximum
      = (Option.some 1 : WithBot ℕ) := by
  have h1 := C1_version_invariant.1 _ (Reachable.create DB.empty 0 "app" "d" Reachable.init)
  refine ⟨h1, ?_⟩
  exact (C1_version_invariant.2.1 _ h1 ⟨"app", 1, 0, 0⟩ (by decide)).1

/-- C2: starting from any valid state in which `name` is fresh,
create → update → update → rollback all succeed and assign versions
1, 2, 3, 4 in creation order, each mutation assigning exactly
`current_version + 1` regardless of operation kind. -/
theorem C2_monotonic_versioning
    (db : DB) (t1 t2 t3 t4 : Nat) (name d1 d2 d3 : String) (t : Nat)
    (hinv : Inv db) (hfresh : db.hasConfig name = false)
    (ht1 : 1 ≤ t) (ht3 : t ≤ 3) :
    ∃ (db1 db2 db3 db4 : DB) (c4 : Configuration),
      CreateConfiguration db t1 name d1 = (db1, .ok ⟨name, 1, t1, t1⟩) ∧
      UpdateConfiguration db1 t2 name d2 = (db2, .ok ⟨name, 2, t2, t2⟩) ∧
      UpdateConfiguration db2 t3 name d3 = (db3, .ok ⟨name, 3, t3, t3⟩) ∧
      RollbackConfiguration db3 t4 name t = (db4, .ok c4) ∧
      c4.CurrentVersion = 4 ∧
      versionNumbersFor db4.versions name = [1, 2, 3, 4] := by
  obtain ⟨db1, e1, hinv1, hfind1, hv1⟩ := create_step db t1 name d1 hfresh hinv
  obtain ⟨db2, e2, hinv2, hfind2, hv2⟩ := update_step db1 t2 name d2 _ hfind1 hinv1
  obtain ⟨db3, e3, hinv3, hfind3, hv3⟩ := update_step db2 t3 name d3 _ hfind2 hinv2
  rw [hv1] at hv2
  rw [hv2] at hv3
  have hmem : t ∈ versionNumbersFor db3.versions name := by
    rw [hv3]
    simp only [List.mem_append, List.mem_singleton, List.mem_cons, List.not_mem_nil]
    omega
  obtain ⟨db4, target, htg, e4, hinv4, hfind4, hvers4, hv4⟩ :=
    rollback_step db3 t4 name t _ hfind3 hinv3 hmem
  rw [hv3] at hv4
  exact ⟨db1, db2, db3, db4, _, e1, e2, e3, e4, rfl, by simpa using hv4⟩

/-- Witness for C2 at the empty store. -/
theorem C2_monotonic_versioning_witness :
    Inv DB.empty ∧ DB.empty.hasConfig "app" = false ∧
    (∃ (db1 db2 db3 db4 : DB) (c4 : Configuration),
      CreateConfiguration DB.empty 1 "app" "a" = (db1, .ok ⟨"app", 1, 1, 1⟩) ∧
      UpdateConfiguration db1 2 "app" "b" = (db2, .ok ⟨"app", 2, 2, 2⟩) ∧
      UpdateConfiguration db2 3 "app" "c" = (db3, .ok ⟨"app", 3, 3, 3⟩) ∧
      RollbackConfiguration db3 4 "app" 1 = (db4, .ok c4) ∧
      c4.CurrentVersion = 4 ∧
      versionNumbersFor db4.versions "app" = [1, 2, 3, 4]) :=
  ⟨by decide, by decide,
    C2_monotonic_versioning DB.empty 1 2 3 4 "app" "a" "b" "c" 1
      (by decide) (by decide) (by decide) (by decide)⟩

/-- C3: when the configuration exists with current version `N` and version `V`
exists, rollback succeeds, appends a single new version row numbered `N + 1`
whose `json_data` equals version `V`'s data verbatim, advances
`current_version` to `N + 1`, and leaves every pre-existing version row in
place unchanged. -/
theorem C3_rollback_additive (db : DB) (now : Nat) (name : String) (V : Nat)
    (target : Version) (cfg : Configuration)
    (hver : db.findVersion name V = some target)
    (hfind : db.findConfig name = some cfg) (hinv : Inv db) :
    ∃ db' : DB,
      RollbackConfiguration db now name V =
        (db', .ok ⟨name, cfg.CurrentVersion + 1, cfg.CreatedAt, now⟩) ∧
      db'.versions = db.versions ++
        [⟨db.nextVersionId, name, cfg.CurrentVersion + 1, target.JsonData, now⟩] ∧
      db'.findConfig name =
        some { cfg with CurrentVersion := cfg.CurrentVersion + 1, UpdatedAt := now } := by
  refine ⟨_, rollback_ok db now name V target cfg hver hfind hinv, rfl, ?_⟩
  exact findConfig_map_advance db.configs name _ now cfg hfind

/-- Witness for C3 at a concrete two-version store. -/
theorem C3_rollback_additive_witness :
    (let db2 := (UpdateConfiguration (CreateConfiguration DB.empty 0 "app" "a").1 1 "app" "b").1
     db2.findVersion "app" 1 = some ⟨1, "app", 1, "a", 0⟩ ∧
     db2.findConfig "app" = some ⟨"app", 2, 0, 1⟩ ∧ Inv db2 ∧
     ∃ db' : DB,
       RollbackConfiguration db2 7 "app" 1 = (db', .ok ⟨"app", 3, 0, 7⟩) ∧
       db'.versions = db2.versions ++ [⟨3, "app", 3, "a", 7⟩] ∧
       db'.findConfig "app" = some ⟨"app", 3, 0, 7⟩) :=
  ⟨by decide, by decide, by decide,
    C3_rollback_additive _ 7 "app" 1 ⟨1, "app", 1, "a", 0⟩ ⟨"app", 2, 0, 1⟩
      (by decide) (by decide) (by decide)⟩

/-- C5: creating a configuration whose name already has a row fails with
`ConfigAlreadyExists` and leaves the whole store (the existing configuration
and all of its versions) unchanged. -/
theorem C5_create_duplicate_fails (db : DB) (now : Nat) (name jsonData : String)
    (hexists : db.hasConfig name = true) :
    CreateConfiguration db now name jsonData =
      (db, .error (.configAlreadyExists name)) := by
  unfold CreateConfiguration
  rw [hexists]
  simp

/-- Witness for C5 at a concrete store containing the name. -/
theorem C5_create_duplicate_fails_witness :
    (CreateConfiguration DB.empty 0 "app" "a").1.hasConfig "app" = true ∧
    CreateConfiguration (CreateConfiguration DB.empty 0 "app" "a").1 5 "app" "b" =
      ((CreateConfiguration DB.empty 0 "app" "a").1,
       .error (.configAlreadyExists "app")) :=
  ⟨by decide,
    C5_create_duplicate_fails (CreateConfiguration DB.empty 0 "app" "a").1 5 "app" "b"
      (by decide)⟩

/-- C8: rollback checks the target version before the configuration:
a missing `(name, targetVersion)` row yields `VersionNotFound`;
`ConfigNotFound` arises only when the version row exists and the
configuration row is missing; hence on a valid state with no configuration
row for `name`, rollback fails with `VersionNotFound`. -/
theorem C8_rollback_checks_version_first :
    (∀ (db : DB) (now : Nat) (name : String) (t : Nat),
      db.findVersion name t = none →
      RollbackConfiguration db now name t = (db, .error (.versionNotFound name t))) ∧
    (∀ (db : DB) (now : Nat) (name : String) (t : Nat) (target : Version),
      db.findVersion name t = some target →
      db.findConfig name = none →
      RollbackConfiguration db now name t = (db, .error (.configNotFound name))) ∧
    (∀ (db : DB) (now : Nat) (name : String) (t : Nat),
      Inv db → db.findConfig name = none → 1 ≤ t →
      RollbackConfiguration db now name t = (db, .error (.versionNotFound name t))) := by
  refine ⟨?_, ?_, ?_⟩
  · intro db now name t h
    unfold RollbackConfiguration
    rw [h]
  · intro db now name t target hver hfind
    unfold RollbackConfiguration
    rw [hver, hfind]
  · intro db now name t hinv hfind ht
    unfold RollbackConfiguration
    rw [no_config_no_version db name t hinv ((findConfig_eq_none_iff db name).1 hfind)]

/-- Witness for C8 on the empty store. -/
theorem C8_rollback_checks_version_first_witness :
    Inv DB.empty ∧ DB.empty.findConfig "missing" = none ∧
    RollbackConfiguration DB.empty 0 "missing" 1 =
      (DB.empty, .error (.versionNotFound "missing" 1)) :=
  ⟨by decide, by decide,
    C8_rollback_checks_version_first.2.2 DB.empty 0 "missing" 1
      (by decide) (by decide) (by decide)⟩

/-- C10: a successful `UpdateConfiguration` returns a configuration whose
`CreatedAt` is the update time (equal to `UpdatedAt`), while a successful
`RollbackConfiguration` returns the original `created_at` read back from the
stored configuration row. -/
theorem C10_returned_timestamps :
    (∀ (db : DB) (now : Nat) (name jsonData : String) (db' : DB) (c : Configuration),
      UpdateConfiguration db now name jsonData = (db', Except.ok c) →
      c.CreatedAt = now ∧ c.UpdatedAt = now) ∧
    (∀ (db : DB) (now : Nat) (name : String) (t : Nat) (db' : DB)
        (c cfg : Configuration),
      db.findConfig name = some cfg →
      RollbackConfiguration db now name t = (db', Except.ok c) →
      c.CreatedAt = cfg.CreatedAt ∧ c.UpdatedAt = now) := by
  constructor
  · intro db now name jsonData db' c h
    unfold UpdateConfiguration at h
    cases hfind : db.findConfig name with
    | none =>
      rw [hfind] at h
      simp at h
    | some cfg =>
      rw [hfind] at h
      by_cases hv : db.hasVersion name (cfg.CurrentVersion + 1) = true
      · simp [hv] at h
      · rw [Bool.not_eq_true] at hv
        simp only [hv, Bool.false_eq_true, if_false, Prod.mk.injEq, Except.ok.injEq] at h
        rw [← h.2]
        exact ⟨rfl, rfl⟩
  · intro db now name t db' c cfg hfind h
    unfold RollbackConfiguration at h
    cases hver : db.findVersion name t with
    | none =>
      rw [hver] at h
      simp at h
    | some target =>
      rw [hver, hfind] at h
      by_cases hv : db.hasVersion name (cfg.CurrentVersion + 1) = true
      · simp [hv] at h
      · rw [Bool.not_eq_true] at hv
        simp only [hv, Bool.false_eq_true, if_false, Prod.mk.injEq, Except.ok.injEq] at h
        rw [← h.2]
        exact ⟨rfl, rfl⟩

/-- Witness for C10 at a concrete one-version store. -/
theorem C10_returned_timestamps_witness :
    (UpdateConfiguration ⟨[⟨"app", 1, 0, 0⟩], [⟨1, "app", 1, "a", 0⟩], 2⟩ 5 "app" "b" =
        (⟨[⟨"app", 2, 0, 5⟩], [⟨1, "app", 1, "a", 0⟩, ⟨2, "app", 2, "b", 5⟩], 3⟩,
         Except.ok ⟨"app", 2, 5, 5⟩) ∧
      (⟨"app", 2, 5, 5⟩ : Configuration).CreatedAt = 5) ∧
    ((⟨[⟨"app", 1, 0, 0⟩], [⟨1, "app", 1, "a", 0⟩], 2⟩ : DB).findConfig "app" =
        some ⟨"app", 1, 0, 0⟩ ∧
      (⟨"app", 2, 0, 7⟩ : Configuration).CreatedAt =
        (⟨"app", 1, 0, 0⟩ : Configuration).CreatedAt) :=
  ⟨⟨rfl,
    (C10_returned_timestamps.1 ⟨[⟨"app", 1, 0, 0⟩], [⟨1, "app", 1, "a", 0⟩], 2⟩ 5 "app" "b"
      ⟨[⟨"app", 2, 0, 5⟩], [⟨1, "app", 1, "a", 0⟩, ⟨2, "app", 2, "b", 5⟩], 3⟩
      ⟨"app", 2, 5, 5⟩ rfl).1⟩,
   ⟨rfl,
    (C10_returned_timestamps.2 ⟨[⟨"app", 1, 0, 0⟩], [⟨1, "app", 1, "a", 0⟩], 2⟩ 7 "app" 1
      ⟨[⟨"app", 2, 0, 7⟩], [⟨1, "app", 1, "a", 0⟩, ⟨2, "app", 2, "a", 7⟩], 3⟩
      ⟨"app", 2, 0, 7⟩ ⟨"app", 1, 0, 0⟩ rfl rfl).1⟩⟩

/-- C4: the code maps an empty join result to `ConfigNotFound` even when the
configuration row exists (an internal-consistency violation state): at a
state holding a configuration `app` with `current_version = 2` but only
version row 1, `GetLatestConfiguration` returns `ConfigNotFound`, not an
internal error.  This demonstrates the divergence from the specified
behavior. -/
theorem C4_latest_join_miss_yields_config_not_found :
    (⟨[⟨"app", 2, 0, 0⟩], [⟨1, "app", 1, "d", 0⟩], 2⟩ : DB).findConfig "app" =
      some ⟨"app", 2, 0, 0⟩ ∧
    GetLatestConfiguration ⟨[⟨"app", 2, 0, 0⟩], [⟨1, "app", 1, "d", 0⟩], 2⟩ "app" =
      .error (.configNotFound "app") :=
  ⟨rfl, rfl⟩

/-- C9: `ListVersions` fails with `ConfigNotFound` exactly when the
configuration row is absent; otherwise it returns the configuration metadata
together with all version rows for the name, ordered by version number
descending — strictly descending on valid states. -/
theorem C9_list_versions_descending :
    (∀ (db : DB) (name : String), db.findConfig name = none →
      ListVersions db name = .error (.configNotFound name)) ∧
    (∀ (db : DB) (name : String) (cfg : Configuration),
      db.findConfig name = some cfg →
      ∃ vs : List Version,
        ListVersions db name = .ok (cfg, vs) ∧
        vs.Perm (db.versions.filter (fun v => v.ConfigurationName == name)) ∧
        vs.Pairwise (fun a b => b.VersionNumber ≤ a.VersionNumber) ∧
        (Inv db → vs.Pairwise (fun a b => b.VersionNumber < a.VersionNumber))) := by
  constructor
  · intro db name h
    unfold ListVersions
    rw [h]
  · intro db name cfg hfind
    refine ⟨(db.versions.filter (fun v => v.ConfigurationName == name)).mergeSort
        (fun a b : Version => decide (b.VersionNumber ≤ a.VersionNumber)),
      ?_, List.mergeSort_perm _ _, ?_, ?_⟩
    · unfold ListVersions
      rw [hfind]
    · have h := @List.sorted_mergeSort Version
        (fun a b : Version => decide (b.VersionNumber ≤ a.VersionNumber))
        (fun a b c hab hbc => by
          simp only [decide_eq_true_eq] at *
          omega)
        (fun a b => by
          simp only [Bool.or_eq_true, decide_eq_true_eq]
          omega)
        (db.versions.filter (fun v => v.ConfigurationName == name))
      exact h.imp (fun hab => by simpa using hab)
    · intro hinv
      have hperm := List.mergeSort_perm
        (db.versions.filter (fun v => v.ConfigurationName == name))
        (fun a b : Version => decide (b.VersionNumber ≤ a.VersionNumber))
      have hnums := hinv.2.2 cfg (findConfig_mem db name cfg hfind)
      rw [findConfig_name db name cfg hfind] at hnums
      have hnd : ((db.versions.filter (fun v => v.ConfigurationName == name)).mergeSort
          (fun a b : Version => decide (b.VersionNumber ≤ a.VersionNumber))
          |>.map (fun v => v.VersionNumber)).Nodup := by
        have hp2 := hperm.map (fun v : Version => v.VersionNumber)
        have hp3 : (((db.versions.filter (fun v => v.ConfigurationName == name)).mergeSort
            (fun a b : Version => decide (b.VersionNumber ≤ a.VersionNumber))).map
              (fun v => v.VersionNumber)).Perm
            (versionNumbersFor db.versions name) := hp2
        rw [hnums] at hp3
        exact hp3.nodup_iff.2 (List.nodup_range' 1 cfg.CurrentVersion)
      have hne := List.pairwise_map.1 hnd
      have hle := @List.sorted_mergeSort Version
        (fun a b : Version => decide (b.VersionNumber ≤ a.VersionNumber))
        (fun a b c hab hbc => by
          simp only [decide_eq_true_eq] at *
          omega)
        (fun a b => by
          simp only [Bool.or_eq_true, decide_eq_true_eq]
          omega)
        (db.versions.filter (fun v => v.ConfigurationName == name))
      exact (hle.and hne).imp (fun hab => by
        obtain ⟨h1, h2⟩ := hab
        simp only [decide_eq_true_eq] at h1
        omega)

/-- Witness for C9 at a concrete two-version store and at the empty store. -/
theorem C9_list_versions_descending_witness :
    (DB.empty.findConfig "missing" = none ∧
      ListVersions DB.empty "missing" = .error (.configNotFound "missing")) ∧
    ((⟨[⟨"app", 2, 0, 1⟩], [⟨1, "app", 1, "a", 0⟩, ⟨2, "app", 2, "b", 1⟩], 3⟩ : DB).findConfig
        "app" = some ⟨"app", 2, 0, 1⟩ ∧
      ∃ vs : List Version,
        ListVersions ⟨[⟨"app", 2, 0, 1⟩], [⟨1, "app", 1, "a", 0⟩, ⟨2, "app", 2, "b", 1⟩], 3⟩
            "app" = .ok (⟨"app", 2, 0, 1⟩, vs) ∧
        vs.Perm ((⟨[⟨"app", 2, 0, 1⟩], [⟨1, "app", 1, "a", 0⟩, ⟨2, "app", 2, "b", 1⟩],
            3⟩ : DB).versions.filter (fun v => v.ConfigurationName == "app")) ∧
        vs.Pairwise (fun a b => b.VersionNumber ≤ a.VersionNumber) ∧
        (Inv ⟨[⟨"app", 2, 0, 1⟩], [⟨1, "app", 1, "a", 0⟩, ⟨2, "app", 2, "b", 1⟩], 3⟩ →
          vs.Pairwise (fun a b => b.VersionNumber < a.VersionNumber))) :=
  ⟨⟨rfl, C9_list_versions_descending.1 DB.empty "missing" rfl⟩,
   ⟨rfl, C9_list_versions_descending.2
      ⟨[⟨"app", 2, 0, 1⟩], [⟨1, "app", 1, "a", 0⟩, ⟨2, "app", 2, "b", 1⟩], 3⟩
      "app" ⟨"app", 2, 0, 1⟩ rfl⟩⟩

/-! Lemmas about object-field lookup and two-element permutations. -/

theorem lookupField_mem (fields : List (String × Json)) (key : String) (v : Json)
    (h : lookupField fields key = some v) : (key, v) ∈ fields := by
  unfold lookupField at h
  cases hf : fields.find? (fun p => p.1 == key) with
  | none =>
    rw [hf] at h
    simp at h
  | some p =>
    rw [hf] at h
    have h1 : p.1 = key := by simpa using List.find?_some hf
    have h2 := List.mem_of_find?_eq_some hf
    have h3 : p.2 = v := by simpa using h
    rw [← h1, ← h3]
    exact h2

theorem lookupField_of_mem_nodup (fields : List (String × Json)) (p : String × Json)
    (hnd : (fields.map Prod.fst).Nodup) (hp : p ∈ fields) :
    lookupField fields p.1 = some p.2 := by
  induction fields with
  | nil => cases hp
  | cons q rest ih =>
    rw [List.map_cons, List.nodup_cons] at hnd
    rcases List.mem_cons.1 hp with rfl | hp2
    · unfold lookupField
      rw [List.find?_cons_of_pos _ (by simp)]
      rfl
    · have hne : ¬(q.1 == p.1) = true := by
        simp only [beq_iff_eq]
        intro e
        exact hnd.1 (e ▸ List.mem_map_of_mem Prod.fst hp2)
      unfold lookupField
      have hfind : List.find? (fun r : String × Json => r.1 == p.1) (q :: rest) =
          List.find? (fun r : String × Json => r.1 == p.1) rest :=
        List.find?_cons_of_neg rest hne
      rw [hfind]
      exact ih hnd.2 hp2

theorem perm_pair_cases {α : Type} (l : List α) (a b : α) (h : l.Perm [a, b]) :
    l = [a, b] ∨ l = [b, a] := by
  have hlen : l.length = 2 := by simpa using h.length_eq
  match l, hlen, h with
  | [x, y], _, h =>
    have hx : x ∈ [a, b] := h.subset (by simp)
    rcases (by simpa using hx : x = a ∨ x = b) with rfl | rfl
    · left
      have hy : y = b := by simpa using List.perm_singleton.1 h.cons_inv
      rw [hy]
    · right
      have h2 : [x, y].Perm [x, a] := h.trans (List.Perm.swap x a [])
      have hy : y = a := by simpa using List.perm_singleton.1 h2.cons_inv
      rw [hy]

theorem maxLimitViolations_eq_nil (fields : List (String × Json)) :
    maxLimitViolations fields = [] ↔
      ∃ n : Int, lookupField fields "max_limit" = some (.integer n) ∧ 0 ≤ n := by
  unfold maxLimitViolations
  cases h : lookupField fields "max_limit" with
  | none => simp
  | some j =>
    cases j with
    | integer n =>
      dsimp only
      constructor
      · intro h0
        refine ⟨n, rfl, ?_⟩
        by_contra hneg
        rw [if_pos (by omega)] at h0
        cases h0
      · rintro ⟨m, hm, hm0⟩
        have hnm : n = m := by simpa using hm
        subst hnm
        rw [if_neg (by omega)]
    | null => simp
    | boolean b => simp
    | fraction num den => simp
    | str s => simp
    | array elems => simp
    | object fs => simp

theorem enabledViolations_eq_nil (fields : List (String × Json)) :
    enabledViolations fields = [] ↔
      ∃ b : Bool, lookupField fields "enabled" = some (.boolean b) := by
  unfold enabledViolations
  cases h : lookupField fields "enabled" with
  | none => simp
  | some j =>
    cases j with
    | boolean b => simp
    | null => simp
    | integer n => simp
    | fraction num den => simp
    | str s => simp
    | array elems => simp
    | object fs => simp

theorem additionalViolations_eq_nil (fields : List (String × Json)) :
    additionalViolations fields = [] ↔
      ∀ p ∈ fields, p.1 = "max_limit" ∨ p.1 = "enabled" := by
  unfold additionalViolations
  rw [List.map_eq_nil_iff, List.filter_eq_nil_iff]
  constructor
  · intro h p hp
    have := h p hp
    simp only [Bool.and_eq_true, bne_iff_ne, ne_eq, not_and, not_not] at this
    by_cases h1 : p.1 = "max_limit"
    · exact Or.inl h1
    · exact Or.inr (this h1)
  · intro h p hp
    simp only [Bool.and_eq_true, bne_iff_ne, ne_eq, not_and, not_not]
    intro h1
    rcases h p hp with h2 | h2
    · exact absurd h2 h1
    · exact h2

/-- C7: the validator accepts a document exactly when it is an object whose
fields are precisely `max_limit` (an integer `≥ 0`) and `enabled` (a
boolean) with nothing else; any non-object is rejected; and a rejection
enumerates every violated constraint with field path and description, not
just the first (three at once in the sample below). -/
theorem C7_schema_validator_exact :
    (∀ fields : List (String × Json), (fields.map Prod.fst).Nodup →
      (schemaViolations (Json.object fields) = [] ↔
        ∃ (n : Int) (b : Bool), 0 ≤ n ∧
          fields.Perm [("max_limit", Json.integer n), ("enabled", Json.boolean b)])) ∧
    (∀ doc : Json, (∀ fields, doc ≠ Json.object fields) → schemaViolations doc ≠ []) ∧
    ValidateConfigData (Json.object [("foo", Json.integer 1)]) =
      some ⟨"Configuration data does not match required schema",
        [⟨"(root)", "max_limit is required"⟩, ⟨"(root)", "enabled is required"⟩,
         ⟨"(root)", "Additional property foo is not allowed"⟩]⟩ := by
  refine ⟨?_, ?_, by rfl⟩
  · intro fields hnd
    constructor
    · intro h0
      simp only [schemaViolations, List.append_eq_nil] at h0
      obtain ⟨⟨hA, hB⟩, hC⟩ := h0
      obtain ⟨n, hml, hn⟩ := (maxLimitViolations_eq_nil fields).1 hA
      obtain ⟨b, hen⟩ := (enabledViolations_eq_nil fields).1 hB
      have hall := (additionalViolations_eq_nil fields).1 hC
      refine ⟨n, b, hn, ?_⟩
      have hmem1 : ("max_limit", Json.integer n) ∈ fields := lookupField_mem _ _ _ hml
      have hmem2 : ("enabled", Json.boolean b) ∈ fields := lookupField_mem _ _ _ hen
      have hLnd : ([("max_limit", Json.integer n),
          ("enabled", Json.boolean b)] : List (String × Json)).Nodup := by
        refine List.nodup_cons.2 ⟨?_, List.nodup_singleton _⟩
        intro hx
        have := congrArg Prod.fst (List.mem_singleton.1 hx)
        simp at this
      have hFnd : fields.Nodup := List.Nodup.of_map _ hnd
      have hsub1 : ([("max_limit", Json.integer n),
          ("enabled", Json.boolean b)] : List (String × Json)) ⊆ fields := by
        intro x hx
        rcases List.mem_cons.1 hx with rfl | hx2
        · exact hmem1
        · rw [List.mem_singleton.1 hx2]
          exact hmem2
      have hsub2 : fields ⊆ [("max_limit", Json.integer n),
          ("enabled", Json.boolean b)] := by
        intro p hp
        have hlk := lookupField_of_mem_nodup fields p hnd hp
        rcases hall p hp with h1 | h1
        · rw [h1, hml] at hlk
          have h2 : p.2 = Json.integer n := by simpa using hlk.symm
          have hp' : p = ("max_limit", Json.integer n) := by
            obtain ⟨p1, p2⟩ := p
            simp only at h1 h2
            rw [h1, h2]
          rw [hp']
          simp
        · rw [h1, hen] at hlk
          have h2 : p.2 = Json.boolean b := by simpa using hlk.symm
          have hp' : p = ("enabled", Json.boolean b) := by
            obtain ⟨p1, p2⟩ := p
            simp only at h1 h2
            rw [h1, h2]
          rw [hp']
          simp
      exact (hFnd.subperm hsub2).antisymm (hLnd.subperm hsub1)
    · rintro ⟨n, b, hn, hperm⟩
      rcases perm_pair_cases _ _ _ hperm with rfl | rfl
      · have e1 : lookupField [("max_limit", Json.integer n),
            ("enabled", Json.boolean b)] "max_limit" = some (Json.integer n) := rfl
        have e2 : lookupField [("max_limit", Json.integer n),
            ("enabled", Json.boolean b)] "enabled" = some (Json.boolean b) := rfl
        simp only [schemaViolations, maxLimitViolations, enabledViolations,
          additionalViolations, e1, e2]
        rw [if_neg (by omega)]
        rfl
      · have e1 : lookupField [("enabled", Json.boolean b),
            ("max_limit", Json.integer n)] "max_limit" = some (Json.integer n) := rfl
        have e2 : lookupField [("enabled", Json.boolean b),
            ("max_limit", Json.integer n)] "enabled" = some (Json.boolean b) := rfl
        simp only [schemaViolations, maxLimitViolations, enabledViolations,
          additionalViolations, e1, e2]
        rw [if_neg (by omega)]
        rfl
  · intro doc h
    cases doc with
    | object fields => exact absurd rfl (h fields)
    | null => simp [schemaViolations]
    | boolean b => simp [schemaViolations]
    | integer n => simp [schemaViolations]
    | fraction num den => simp [schemaViolations]
    | str s => simp [schemaViolations]
    | array elems => simp [schemaViolations]

/-- Witness for C7 at a concrete accepted document. -/
theorem C7_schema_validator_exact_witness :
    (([("max_limit", Json.integer 5), ("enabled", Json.boolean true)].map
        Prod.fst).Nodup) ∧
    (schemaViolations (Json.object
        [("max_limit", Json.integer 5), ("enabled", Json.boolean true)]) = [] ↔
      ∃ (n : Int) (b : Bool), 0 ≤ n ∧
        ([("max_limit", Json.integer 5), ("enabled", Json.boolean true)]
          : List (String × Json)).Perm
            [("max_limit", Json.integer n), ("enabled", Json.boolean b)]) :=
  ⟨by decide, C7_schema_validator_exact.1 _ (by decide)⟩

/-- C6: a payload that fails schema validation makes `CreateConfig` and
`UpdateConfig` return the `SchemaValidationFailed` error unchanged without
touching the store: the returned state is the input state and no row is
written. -/
theorem C6_service_schema_gate (db : DB) (now : Nat) (name : String) (payload : Json)
    (e : SchemaValidationError) (h : ValidateConfigData payload = some e) :
    ConfigService.CreateConfig db now name payload =
      (db, .error (.schemaValidation e)) ∧
    ConfigService.UpdateConfig db now name payload =
      (db, .error (.schemaValidation e)) := by
  unfold ConfigService.CreateConfig ConfigService.UpdateConfig
  rw [h]
  exact ⟨rfl, rfl⟩

/-- Witness for C6 with a payload missing `enabled` and one whose
`max_limit` is a non-integer number. -/
theorem C6_service_schema_gate_witness :
    (ValidateConfigData (Json.object [("max_limit", Json.integer 5)]) =
        some ⟨"Configuration data does not match required schema",
          [⟨"(root)", "enabled is required"⟩]⟩ ∧
      ConfigService.CreateConfig DB.empty 0 "app"
          (Json.object [("max_limit", Json.integer 5)]) =
        (DB.empty, .error (.schemaValidation
          ⟨"Configuration data does not match required schema",
            [⟨"(root)", "enabled is required"⟩]⟩))) ∧
    (ValidateConfigData (Json.object
          [("max_limit", Json.fraction 5 2), ("enabled", Json.boolean true)]) =
        some ⟨"Configuration data does not match required schema",
          [⟨"max_limit", "Invalid type. Expected: integer"⟩]⟩ ∧
      ConfigService.UpdateConfig DB.empty 0 "app"
          (Json.object [("max_limit", Json.fraction 5 2), ("enabled", Json.boolean true)]) =
        (DB.empty, .error (.schemaValidation
          ⟨"Configuration data does not match required schema",
            [⟨"max_limit", "Invalid type. Expected: integer"⟩]⟩))) :=
  ⟨⟨rfl, (C6_service_schema_gate DB.empty 0 "app"
      (Json.object [("max_limit", Json.integer 5)]) _ rfl).1⟩,
   ⟨rfl, (C6_service_schema_gate DB.empty 0 "app"
      (Json.object [("max_limit", Json.fraction 5 2), ("enabled", Json.boolean true)])
      _ rfl).2⟩⟩

end ConfigManager
